import Mathlib

/-!
Verification of the go24k slideshow generator: a shallow embedding of the
pure argument-vector and filter-graph construction logic of
`utils/generateVideo.go` and `utils/convertImages.go`, together with
theorems settling the specification claims about crossfade timing, fade-out
and trim placement, audio fade scheduling, encoder-priority selection,
filter-graph label discipline, precondition errors, audio mapping,
capability-probe degradation and drawtext overlay escaping.

Machine integers of the Go source (`int`) are modelled as `Int`; Go string
formatting with `%d` becomes `toString` on `Int`/`Nat`; the subprocess and
filesystem collaborators are modelled as explicit parameters (glob results,
probe outputs, per-clip effect strings and overlay texts).
-/

/-- The single-quote character, used by the drawtext filter syntax. -/
def quoteChar : Char := Char.ofNat 39

/-- The single-quote character as a one-character string. -/
def quoteStr : String := String.mk [quoteChar]

/-- Go `strings.Contains`: substring test, embedded on character lists.
`listStarts p s` is true when `p` is an initial segment of `s`. -/
def listStarts : List Char → List Char → Bool
  | [], _ => true
  | _ :: _, [] => false
  | p :: ps, s :: ss => p == s && listStarts ps ss

/-- `listContainsSub pat s` is true when `pat` occurs contiguously in `s`. -/
def listContainsSub (pat : List Char) : List Char → Bool
  | [] => listStarts pat []
  | c :: rest => listStarts pat (c :: rest) || listContainsSub pat rest

/-- Go `strings.Contains(s, pat)`. -/
def strContainsSub (s pat : String) : Bool :=
  listContainsSub pat.data s.data

/-! ## Timeline arithmetic (from `GenerateVideo`)

The Go source computes, with `index = totalFiles = n` after the per-clip
loop:
`totalDuration := index*duration - (index-1)*fadeDuration`,
`startFadeOut := totalDuration - fadeDuration`,
`finalLength := (totalFiles * duration) - ((totalFiles - 1) * fadeDuration)`,
and the crossfade loop body computes `offset := (i + 1) * (duration - fadeDuration)`.
-/

/-- `totalDuration` as computed in `GenerateVideo`. -/
def totalDuration (n : Nat) (duration fadeDuration : Int) : Int :=
  (n : Int) * duration - ((n : Int) - 1) * fadeDuration

/-- `startFadeOut` as computed in `GenerateVideo`. -/
def startFadeOut (n : Nat) (duration fadeDuration : Int) : Int :=
  totalDuration n duration fadeDuration - fadeDuration

/-- `finalLength` as computed (separately from `totalDuration`) in
`GenerateVideo`. -/
def finalLength (n : Nat) (duration fadeDuration : Int) : Int :=
  (n : Int) * duration - ((n : Int) - 1) * fadeDuration

/-- The crossfade offset computed in iteration `i` of the transition loop:
`offset := (i + 1) * (duration - fadeDuration)`. -/
def xfadeOffset (duration fadeDuration : Int) (i : Nat) : Int :=
  ((i : Int) + 1) * (duration - fadeDuration)

/-- The sequence of crossfade offsets over the whole transition loop,
which runs for `i` in `0 .. n-2`. -/
def xfadeOffsets (n : Nat) (duration fadeDuration : Int) : List Int :=
  (List.range (n - 1)).map (xfadeOffset duration fadeDuration)

/-- The start time of the background-audio fade-out, as computed in
`GenerateVideo`: `startFadeOut - 4`. -/
def audioFadeOutStart (n : Nat) (duration fadeDuration : Int) : Int :=
  startFadeOut n duration fadeDuration - 4

/-! ## Filter-graph string fragments (from `GenerateVideo`) -/

/-- The drawtext filter appended for a non-empty EXIF overlay text, exactly
as in the source format string
`",drawtext=text='%s':fontsize=36:fontcolor=white:x=(w-tw)/2:y=h-th-20:box=1:boxcolor=black@0.5:boxborderw=5"`. -/
def drawtextFilter (text : String) : String :=
  ",drawtext=text=" ++ quoteStr ++ text ++ quoteStr ++
    ":fontsize=36:fontcolor=white:x=(w-tw)/2:y=h-th-20:box=1:boxcolor=black@0.5:boxborderw=5"

/-- The per-clip base filter before any overlay: Ken Burns effect or copy,
with a fade-in chained for clip 0, exactly as in the source branches. -/
def clipBaseFilter (applyKenBurns : Bool) (effects : Nat → String)
    (fadeDuration : Int) (i : Nat) : String :=
  if applyKenBurns then
    if i = 0 then
      "[0:v]" ++ effects 0 ++ ",fade=t=in:st=0:d=" ++ toString fadeDuration
    else
      "[" ++ toString i ++ ":v]" ++ effects i
  else
    if i = 0 then
      "[0:v]fade=t=in:st=0:d=" ++ toString fadeDuration
    else
      "[" ++ toString i ++ ":v]copy"

/-- The full per-clip fragment appended to `filterComplex`:
base filter, optional drawtext overlay, and the `[v i]; ` output label.
The overlay collaborator (EXIF extraction over the original file) is
modelled by `overlays : Nat → String`, the empty string meaning that no
overlay text was produced for that clip. -/
def clipFragment (applyKenBurns exifOverlay : Bool)
    (effects overlays : Nat → String) (fadeDuration : Int) (i : Nat) : String :=
  (if exifOverlay && !(overlays i == "") then
    clipBaseFilter applyKenBurns effects fadeDuration i ++ drawtextFilter (overlays i)
  else
    clipBaseFilter applyKenBurns effects fadeDuration i)
  ++ "[v" ++ toString i ++ "]; "

/-- The crossfade fragment appended in iteration `i` of the transition
loop, exactly mirroring the two source format strings (the `i == 0`
iteration reads `[v0]`, later iterations read the previous `[x i]`). -/
def xfadeFragment (duration fadeDuration : Int) (i : Nat) : String :=
  (if i = 0 then "[v0]" else "[x" ++ toString i ++ "]")
  ++ "[v" ++ toString (i + 1) ++ "]xfade=transition=fade:duration="
  ++ toString fadeDuration ++ ":offset="
  ++ toString (xfadeOffset duration fadeDuration i)
  ++ "[x" ++ toString (i + 1) ++ "]; "

/-- The final fade-out fragment
`"[x%d]fade=t=out:st=%d:d=%d[xf]; "` with `index-1`, `startFadeOut`,
`fadeDuration`. -/
def fadeOutFragment (n : Nat) (duration fadeDuration : Int) : String :=
  "[x" ++ toString (n - 1) ++ "]fade=t=out:st="
  ++ toString (startFadeOut n duration fadeDuration)
  ++ ":d=" ++ toString fadeDuration ++ "[xf]; "

/-- The trim fragment `"[xf]trim=duration=%d,setpts=PTS-STARTPTS[xfout]; "`
with `finalLength`. -/
def trimFragment (n : Nat) (duration fadeDuration : Int) : String :=
  "[xf]trim=duration=" ++ toString (finalLength n duration fadeDuration)
  ++ ",setpts=PTS-STARTPTS[xfout]; "

/-- The audio fragment
`"[%d:a]afade=t=in:st=0:d=2,afade=t=out:st=%d:d=4[musicout]; "` with input
stream index `index` (= the number of image inputs) and start
`startFadeOut - 4`. -/
def audioFragment (n : Nat) (duration fadeDuration : Int) : String :=
  "[" ++ toString n ++ ":a]afade=t=in:st=0:d=2,afade=t=out:st="
  ++ toString (audioFadeOutStart n duration fadeDuration)
  ++ ":d=4[musicout]; "

/-- Concatenation of a list of string fragments in order, mirroring the
`filterComplex += ...` accumulation of the Go loops. -/
def strConcat : List String → String
  | [] => ""
  | s :: rest => s ++ strConcat rest

/-- The complete `filterComplex` string accumulated by `GenerateVideo` for
`n` image files, with the audio fragment appended only when an mp3 file was
found. -/
def filterComplex (n : Nat) (duration fadeDuration : Int)
    (applyKenBurns exifOverlay : Bool) (effects overlays : Nat → String)
    (hasAudio : Bool) : String :=
  strConcat ((List.range n).map
      (clipFragment applyKenBurns exifOverlay effects overlays fadeDuration))
  ++ strConcat ((List.range (n - 1)).map (xfadeFragment duration fadeDuration))
  ++ fadeOutFragment n duration fadeDuration
  ++ trimFragment n duration fadeDuration
  ++ (if hasAudio then audioFragment n duration fadeDuration else "")

/-! ## Encoder settings (from `getOptimalVideoSettings`) -/

/-- Base settings emitted unconditionally before the per-backend branch. -/
def baseSettings : List String :=
  ["-pix_fmt", "yuv420p", "-movflags", "+faststart", "-r", "30", "-s", "3840x2160"]

/-- NVENC branch flags. -/
def nvencSettings : List String :=
  ["-c:v", "h264_nvenc", "-preset", "slow", "-profile:v", "high",
   "-level", "5.1", "-rc:v", "vbr", "-cq:v", "21", "-b:v", "0",
   "-maxrate", "15M", "-bufsize", "30M"]

/-- VideoToolbox branch flags. -/
def videotoolboxSettings : List String :=
  ["-c:v", "h264_videotoolbox", "-profile:v", "high", "-level", "5.1",
   "-q:v", "21", "-realtime", "false", "-frames:v", "0",
   "-b:v", "10M", "-maxrate", "15M", "-bufsize", "30M"]

/-- Media Foundation branch flags. -/
def mediaFoundationSettings : List String :=
  ["-c:v", "h264_mf", "-quality", "quality", "-rate_control", "quality",
   "-scenario", "display_remoting", "-profile:v", "high", "-level", "5.1",
   "-b:v", "12M", "-maxrate", "18M", "-bufsize", "36M"]

/-- QSV branch flags. -/
def qsvSettings : List String :=
  ["-c:v", "h264_qsv", "-preset", "slower", "-profile:v", "high",
   "-level", "5.1", "-global_quality", "21", "-look_ahead", "1",
   "-maxrate", "12M", "-bufsize", "24M"]

/-- AMF branch flags. -/
def amfSettings : List String :=
  ["-c:v", "h264_amf", "-quality", "quality", "-rc", "cqp",
   "-qp_i", "21", "-qp_p", "21", "-qp_b", "21",
   "-profile:v", "high", "-level", "5.1", "-maxrate", "12M", "-bufsize", "24M"]

/-- VAAPI branch flags. -/
def vaapiSettings : List String :=
  ["-c:v", "h264_vaapi", "-profile:v", "high", "-level", "5.1",
   "-crf", "21", "-maxrate", "10M", "-bufsize", "20M"]

/-- Software libx264 fallback branch flags. -/
def cpuSettings : List String :=
  ["-c:v", "libx264", "-preset", "slow", "-profile:v", "high",
   "-level", "5.1", "-crf", "21"]

/-- `getOptimalVideoSettings`, parameterized by the six hardware
availability probe results, with the branch order of the source:
NVENC, then VideoToolbox, then Media Foundation, then QSV, then AMF,
then VAAPI, else the CPU fallback. -/
def getOptimalVideoSettings (hasNVENC hasVideoToolbox hasQSV hasAMF
    hasMediaFoundation hasVAAPI : Bool) : List String :=
  baseSettings ++
    (if hasNVENC then nvencSettings
     else if hasVideoToolbox then videotoolboxSettings
     else if hasMediaFoundation then mediaFoundationSettings
     else if hasQSV then qsvSettings
     else if hasAMF then amfSettings
     else if hasVAAPI then vaapiSettings
     else cpuSettings)

/-! ## Capability checks (from `checkNVENCAvailable` and friends)

Each check first runs `ffmpeg -encoders`; the result of that subprocess is
modelled as `Option String` (`none` when the command failed, `some out`
with its standard output otherwise). A failed listing returns `false`.
When the identifier is listed, the hardware checks (except VideoToolbox)
run a synthetic smoke-test encode, modelled by a `Bool` outcome. -/

/-- `checkNVENCAvailable`. -/
def checkNVENCAvailable (encodersOut : Option String) (smokeOk : Bool) : Bool :=
  match encodersOut with
  | none => false
  | some out => if strContainsSub out "h264_nvenc" then smokeOk else false

/-- `checkQSVAvailable`. -/
def checkQSVAvailable (encodersOut : Option String) (smokeOk : Bool) : Bool :=
  match encodersOut with
  | none => false
  | some out => if strContainsSub out "h264_qsv" then smokeOk else false

/-- `checkAMFAvailable`. -/
def checkAMFAvailable (encodersOut : Option String) (smokeOk : Bool) : Bool :=
  match encodersOut with
  | none => false
  | some out => if strContainsSub out "h264_amf" then smokeOk else false

/-- `checkMediaFoundationAvailable`. -/
def checkMediaFoundationAvailable (encodersOut : Option String) (smokeOk : Bool) : Bool :=
  match encodersOut with
  | none => false
  | some out => if strContainsSub out "h264_mf" then smokeOk else false

/-- `checkVAAPIAvailable`. -/
def checkVAAPIAvailable (encodersOut : Option String) (smokeOk : Bool) : Bool :=
  match encodersOut with
  | none => false
  | some out => if strContainsSub out "h264_vaapi" then smokeOk else false

/-- `checkVideoToolboxAvailable` (listing only, no smoke test). -/
def checkVideoToolboxAvailable (encodersOut : Option String) : Bool :=
  match encodersOut with
  | none => false
  | some out => strContainsSub out "h264_videotoolbox"

/-- `getOptimalVideoSettings` composed with the capability checks, as the
source calls them. -/
def getOptimalVideoSettingsProbed (encodersOut : Option String)
    (smokeNVENC smokeQSV smokeAMF smokeMF smokeVAAPI : Bool) : List String :=
  getOptimalVideoSettings
    (checkNVENCAvailable encodersOut smokeNVENC)
    (checkVideoToolboxAvailable encodersOut)
    (checkQSVAvailable encodersOut smokeQSV)
    (checkAMFAvailable encodersOut smokeAMF)
    (checkMediaFoundationAvailable encodersOut smokeMF)
    (checkVAAPIAvailable encodersOut smokeVAAPI)

/-! ## The full ffmpeg argument vector (from `GenerateVideo`) -/

/-- The `-loop 1 -t <duration> -i <file>` input triples built per frame. -/
def imageInputs (files : List String) (duration : Int) : List String :=
  files.flatMap (fun f => ["-loop", "1", "-t", toString duration, "-i", f])

/-- The stream-map arguments: video map always, audio map and `-shortest`
only when an mp3 file was found. -/
def mapArgs (hasAudio : Bool) : List String :=
  if hasAudio then
    ["-map", "[xfout]", "-map", "[musicout]", "-shortest", "video.mp4"]
  else
    ["-map", "[xfout]", "video.mp4"]

/-- The audio codec settings appended only when an mp3 file was found. -/
def audioCodecArgs (hasAudio : Bool) : List String :=
  if hasAudio then ["-c:a", "aac", "-b:a", "192k"] else []

/-- The complete argument vector assembled by `GenerateVideo` after the
precondition checks pass: overwrite flag, image inputs, optional audio
input, filter graph, maps, encoder settings, optional audio codec flags
and the forced final duration. -/
def ffmpegArgs (files musicFiles : List String) (duration fadeDuration : Int)
    (applyKenBurns exifOverlay : Bool) (effects overlays : Nat → String)
    (settings : List String) : List String :=
  let n := files.length
  let hasAudio := !musicFiles.isEmpty
  let audioInput := match musicFiles with
    | [] => []
    | m :: _ => ["-i", m]
  ["-y"] ++ imageInputs files duration ++ audioInput
    ++ ["-filter_complex",
        filterComplex n duration fadeDuration applyKenBurns exifOverlay
          effects overlays hasAudio]
    ++ mapArgs hasAudio ++ settings ++ audioCodecArgs hasAudio
    ++ ["-t", toString (finalLength n duration fadeDuration)]

/-- Error message of `GenerateVideo` when the converted directory holds no
images. -/
def noImagesMsg : String :=
  "No converted images found in " ++ quoteStr ++ "converted/" ++ quoteStr
  ++ " directory.\nPlease convert your images first using the image conversion feature."

/-- Error message of `GenerateVideo` when fewer than 2 images are found;
the count found is interpolated. -/
def notEnoughImagesMsg (count : Nat) : String :=
  "Not enough images found. Need at least 2 images to create a video with transitions.\nFound: "
  ++ toString count ++ " image(s) in " ++ quoteStr ++ "converted/" ++ quoteStr ++ " directory."

/-- `GenerateVideo` up to the point where the subprocess is spawned: the
precondition checks over the glob result, then the assembled argument
vector. `log.Fatalf` termination is modelled as `Except.error`; an error
result therefore carries no argument vector and no subprocess invocation
or output file can occur. -/
def generateVideoArgs (files musicFiles : List String)
    (duration fadeDuration : Int) (applyKenBurns exifOverlay : Bool)
    (effects overlays : Nat → String) (settings : List String) :
    Except String (List String) :=
  if files.length = 0 then
    Except.error noImagesMsg
  else if files.length < 2 then
    Except.error (notEnoughImagesMsg files.length)
  else
    Except.ok (ffmpegArgs files musicFiles duration fadeDuration
      applyKenBurns exifOverlay effects overlays settings)

/-! ## Symbolic labels of the filter graph

To reason about producer/consumer label discipline, the label structure of
the fragments above is read off into a typed node list: each fragment
consumes a list of graph labels (input stream references such as `[0:v]`
or `[n:a]` are exogenous and not graph labels) and produces exactly one
label. The emission order matches the string concatenation order of
`GenerateVideo`. -/

/-- A symbolic label of the filter graph: `v i`, `x i`, `xf`, `xfout` or
`musicout`. -/
inductive Label where
  | v (i : Nat)
  | x (i : Nat)
  | xf
  | xfout
  | musicout
deriving DecidableEq

/-- The textual rendering of a label, as interpolated into the graph
string. -/
def Label.render : Label → String
  | .v i => "v" ++ toString i
  | .x i => "x" ++ toString i
  | .xf => "xf"
  | .xfout => "xfout"
  | .musicout => "musicout"

/-- One node of the filter graph: the graph labels it consumes and the
label it produces. -/
structure FNode where
  inputs : List Label
  output : Label
deriving DecidableEq

/-- The node of clip fragment `i`: consumes only the exogenous input
stream, produces `[v i]`. -/
def clipNode (i : Nat) : FNode := ⟨[], .v i⟩

/-- The node of crossfade fragment `i`: the first consumes `[v0][v1]`,
later ones consume `[x i][v (i+1)]`; fragment `i` produces `[x (i+1)]`. -/
def xfadeNode (i : Nat) : FNode :=
  ⟨if i = 0 then [.v 0, .v 1] else [.x i, .v (i + 1)], .x (i + 1)⟩

/-- The fade-out node: consumes the last crossfade output `[x (n-1)]`,
produces `[xf]`. -/
def fadeOutNode (n : Nat) : FNode := ⟨[.x (n - 1)], .xf⟩

/-- The trim node: consumes `[xf]`, produces `[xfout]`. -/
def trimNode : FNode := ⟨[.xf], .xfout⟩

/-- The audio fade node: consumes only the exogenous audio input stream,
produces `[musicout]`. -/
def afadeNode : FNode := ⟨[], .musicout⟩

/-- The nodes of the filter graph in emission order. -/
def graphNodes (n : Nat) (hasAudio : Bool) : List FNode :=
  (List.range n).map clipNode
    ++ (List.range (n - 1)).map xfadeNode
    ++ [fadeOutNode n, trimNode]
    ++ (if hasAudio then [afadeNode] else [])

/-- Boolean membership of a label in a list of labels. -/
def memB (l : Label) : List Label → Bool
  | [] => false
  | a :: rest => decide (a = l) || memB l rest

/-- `wellScoped produced nodes` checks, walking the nodes in emission
order, that every consumed label was produced by an earlier node (or lies
in the initial `produced` set), accumulating outputs as it goes. -/
def wellScoped (produced : List Label) : List FNode → Bool
  | [] => true
  | node :: rest =>
    node.inputs.all (fun l => memB l produced)
      && wellScoped (node.output :: produced) rest

/-! ## Image conversion stage (from `ConvertImages`) -/

/-- A filesystem side effect of `ConvertImages`. -/
inductive ConvertAction where
  | mkdirConverted
  | processImage (file : String)
deriving DecidableEq

/-- Error message of `ConvertImages` when no jpg files are present. -/
def noJpgMsg : String := "no .jpg files found in current directory"

/-- Error message of `ConvertImages` for fewer than 2 images, with the
count interpolated. -/
def needTwoMsg (count : Nat) : String :=
  "need at least 2 images to create a video, found only " ++ toString count

/-- `ConvertImages`, modelled over the filesystem state it consults: the
existence of the `converted` directory and the glob result for `*.jpg`.
The returned action list records, in order, the side effects performed on
the success path; error returns occur before any action. -/
def convertImages (convertedExists : Bool) (jpgFiles : List String) :
    Except String (List ConvertAction) :=
  if convertedExists then
    Except.ok []
  else if jpgFiles.length = 0 then
    Except.error noJpgMsg
  else if jpgFiles.length < 2 then
    Except.error (needTwoMsg jpgFiles.length)
  else
    Except.ok (ConvertAction.mkdirConverted :: jpgFiles.map ConvertAction.processImage)

/-! ## EXIF overlay formatting (from `FormatCameraInfoOverlay`) -/

/-- The EXIF-derived camera fields (already rendered to strings by
`ExtractCameraInfo`; an absent field is the empty string). -/
structure CameraInfo where
  make : String
  model : String
  lensModel : String
  focalLength : String
  iso : String
  exposureTime : String
  fNumber : String
deriving DecidableEq

/-- `FormatCameraInfoOverlay`: camera line, lens line, then the technical
settings joined with a bullet, all joined with a literal backslash-n. -/
def FormatCameraInfoOverlay (info : CameraInfo) : String :=
  let cameraParts : List String :=
    if info.make ≠ "" ∧ info.model ≠ "" then [info.make ++ " " ++ info.model]
    else if info.model ≠ "" then [info.model]
    else []
  let lensParts : List String :=
    if info.lensModel ≠ "" then [info.lensModel] else []
  let techSettings : List String :=
    (if info.focalLength ≠ "" then [info.focalLength] else [])
      ++ (if info.fNumber ≠ "" then [info.fNumber] else [])
      ++ (if info.exposureTime ≠ "" then [info.exposureTime] else [])
      ++ (if info.iso ≠ "" then [info.iso] else [])
  let techParts : List String :=
    if techSettings.length > 0 then [String.intercalate " • " techSettings] else []
  String.intercalate "\\n" (cameraParts ++ lensParts ++ techParts)

/-- Number of single-quote characters in a string; a filter string whose
quoting is balanced has an even count, and an odd count means a quoted
section is left unterminated. -/
def countQuotes (s : String) : Nat :=
  s.data.count quoteChar

/-- A camera whose model field contains a single-quote character, as EXIF
make/model/lens strings may. -/
def quoteCamera : CameraInfo :=
  ⟨"Leica", "M" ++ quoteStr ++ "11", "", "", "", "", ""⟩

/-! ## Observations on the settings list -/

/-- The codec selected by a settings list: the value following the first
`-c:v` flag. -/
def codecOf : List String → Option String
  | [] => none
  | a :: rest => if a = "-c:v" then rest.head? else codecOf rest

/-- Modelled from the spec: the fixed priority order
NVENC > VideoToolbox > Media Foundation > QSV > AMF > VAAPI, as an ordered
list of (availability, codec) pairs. -/
def specPriorityOrder (nv vt mf qsv amf va : Bool) : List (Bool × String) :=
  [(nv, "h264_nvenc"), (vt, "h264_videotoolbox"), (mf, "h264_mf"),
   (qsv, "h264_qsv"), (amf, "h264_amf"), (va, "h264_vaapi")]

/-- Modelled from the spec: the first available backend in the priority
order, with the software fallback when none is available. -/
def specSelectedCodec (nv vt mf qsv amf va : Bool) : String :=
  match (specPriorityOrder nv vt mf qsv amf va).find? (fun p => p.1) with
  | some p => p.2
  | none => "libx264"

/-! ## Helper lemmas: numeric rendering and string heads -/

theorem digitChar_isDigit : ∀ m, m < 10 → (Nat.digitChar m).isDigit = true := by
  decide

theorem toDigitsCore_digits (b : Nat) (hb : b = 10) :
    ∀ (fuel n : Nat) (ds : List Char),
      ∃ extra : List Char, Nat.toDigitsCore b fuel n ds = extra ++ ds ∧
        (∀ c ∈ extra, c.isDigit = true) ∧ (1 ≤ fuel → extra ≠ []) := by
  intro fuel
  induction fuel with
  | zero =>
    intro n ds
    exact ⟨[], rfl, by simp, by omega⟩
  | succ fuel ih =>
    intro n ds
    by_cases h : n / b = 0
    · refine ⟨[Nat.digitChar (n % b)], ?_, ?_, by simp⟩
      · simp [Nat.toDigitsCore, h]
      · intro c hc
        simp only [List.mem_cons, List.not_mem_nil, or_false] at hc
        subst hc
        exact digitChar_isDigit _ (by rw [hb]; exact Nat.mod_lt _ (by omega))
    · obtain ⟨extra, heq, hdig, _⟩ := ih (n / b) (Nat.digitChar (n % b) :: ds)
      refine ⟨extra ++ [Nat.digitChar (n % b)], ?_, ?_, by simp⟩
      · rw [Nat.toDigitsCore, if_neg h] at *
        rw [heq]
        simp
      · intro c hc
        rcases List.mem_append.mp hc with h2 | h2
        · exact hdig c h2
        · simp only [List.mem_cons, List.not_mem_nil, or_false] at h2
          subst h2
          exact digitChar_isDigit _ (by rw [hb]; exact Nat.mod_lt _ (by omega))

theorem natRepr_digits (n : Nat) :
    (Nat.repr n).data ≠ [] ∧ ∀ c ∈ (Nat.repr n).data, c.isDigit = true := by
  obtain ⟨extra, heq, hdig, hne⟩ := toDigitsCore_digits 10 rfl (n + 1) n []
  have hdata : (Nat.repr n).data = extra ++ [] := by
    show (Nat.toDigits 10 n).asString.data = extra ++ []
    rw [Nat.toDigits, heq]
    rfl
  rw [hdata]
  exact ⟨by simpa using hne (by omega), by simpa using hdig⟩

theorem toString_int_nonneg_digits (i : Int) (h : 0 ≤ i) :
    (toString i).data ≠ [] ∧ ∀ c ∈ (toString i).data, c.isDigit = true := by
  obtain ⟨m, rfl⟩ := Int.eq_ofNat_of_zero_le h
  exact natRepr_digits m

theorem ne_of_head_not_digit (s t : String) (hs : ∀ c ∈ s.data, c.isDigit = true)
    (c : Char) (l : List Char) (ht : t.data = c :: l) (hc : c.isDigit = false) :
    s ≠ t := by
  intro heq
  subst heq
  rw [ht] at hs
  have := hs c (List.mem_cons_self _ _)
  rw [hc] at this
  cases this

theorem toString_int_nonneg_ne (i : Int) (h : 0 ≤ i) (t : String)
    (c : Char) (l : List Char) (ht : t.data = c :: l) (hc : c.isDigit = false) :
    toString i ≠ t :=
  ne_of_head_not_digit _ _ (toString_int_nonneg_digits i h).2 c l ht hc

theorem ne_of_data_head (s t : String) (c d : Char) (ls lt : List Char)
    (hs : s.data = c :: ls) (ht : t.data = d :: lt) (hcd : c ≠ d) : s ≠ t := by
  intro heq
  subst heq
  rw [hs] at ht
  exact hcd (List.cons.inj ht).1

theorem head_append (s t : String) (c : Char) (h : ∃ l, s.data = c :: l) :
    ∃ l, (s ++ t).data = c :: l := by
  obtain ⟨l, hl⟩ := h
  exact ⟨l ++ t.data, by rw [String.data_append, hl]; rfl⟩

theorem clipBaseFilter_zero_head (applyKenBurns : Bool) (effects : Nat → String)
    (fadeDuration : Int) :
    ∃ l, (clipBaseFilter applyKenBurns effects fadeDuration 0).data
      = Char.ofNat 91 :: l := by
  unfold clipBaseFilter
  cases applyKenBurns with
  | true =>
    simp only [if_pos, ite_true]
    apply head_append
    apply head_append
    apply head_append
    exact ⟨_, rfl⟩
  | false =>
    simp only [if_pos, ite_false]
    apply head_append
    exact ⟨_, rfl⟩

theorem clipFragment_zero_head (applyKenBurns exifOverlay : Bool)
    (effects overlays : Nat → String) (fadeDuration : Int) :
    ∃ l, (clipFragment applyKenBurns exifOverlay effects overlays fadeDuration 0).data
      = Char.ofNat 91 :: l := by
  unfold clipFragment
  apply head_append
  apply head_append
  apply head_append
  split
  · apply head_append
    exact clipBaseFilter_zero_head applyKenBurns effects fadeDuration
  · exact clipBaseFilter_zero_head applyKenBurns effects fadeDuration

theorem filterComplex_head (n : Nat) (duration fadeDuration : Int)
    (applyKenBurns exifOverlay : Bool) (effects overlays : Nat → String)
    (hasAudio : Bool) (hn : 1 ≤ n) :
    ∃ l, (filterComplex n duration fadeDuration applyKenBurns exifOverlay
      effects overlays hasAudio).data = Char.ofNat 91 :: l := by
  unfold filterComplex
  apply head_append
  apply head_append
  apply head_append
  apply head_append
  obtain ⟨k, rfl⟩ : ∃ k, n = k + 1 := ⟨n - 1, by omega⟩
  rw [List.range_succ_eq_map, List.map_cons]
  show ∃ l, (clipFragment applyKenBurns exifOverlay effects overlays fadeDuration 0
    ++ strConcat _).data = Char.ofNat 91 :: l
  apply head_append
  exact clipFragment_zero_head applyKenBurns exifOverlay effects overlays fadeDuration

/-! ## Helper lemmas: membership and counting in the argument vector -/

theorem notMem_imageInputs (a : String) (files : List String) (duration : Int)
    (h1 : a ≠ "-loop") (h2 : a ≠ "1") (h3 : a ≠ "-t")
    (h4 : a ≠ toString duration) (h5 : a ≠ "-i") (h6 : ∀ f ∈ files, a ≠ f) :
    a ∉ imageInputs files duration := by
  induction files with
  | nil =>
    intro h
    cases h
  | cons f rest ih =>
    intro hmem
    rw [imageInputs, List.flatMap_cons] at hmem
    rcases List.mem_append.mp hmem with h | h
    · simp only [List.mem_cons, List.not_mem_nil, or_false] at h
      rcases h with h | h | h | h | h | h
      · exact h1 h
      · exact h2 h
      · exact h3 h
      · exact h4 h
      · exact h5 h
      · exact h6 f (List.mem_cons_self _ _) h
    · exact ih (fun g hg => h6 g (List.mem_cons_of_mem _ hg)) h

theorem count_imageInputs_zero (a : String) (files : List String) (duration : Int)
    (h1 : a ≠ "-loop") (h2 : a ≠ "1") (h3 : a ≠ "-t")
    (h4 : a ≠ toString duration) (h5 : a ≠ "-i") (h6 : ∀ f ∈ files, a ≠ f) :
    List.count a (imageInputs files duration) = 0 :=
  List.count_eq_zero.mpr (notMem_imageInputs a files duration h1 h2 h3 h4 h5 h6)

theorem settings_no_stream_flags : ∀ nv vt qsv amf mf va : Bool,
    "-map" ∉ getOptimalVideoSettings nv vt qsv amf mf va
      ∧ "-shortest" ∉ getOptimalVideoSettings nv vt qsv amf mf va
      ∧ "-c:a" ∉ getOptimalVideoSettings nv vt qsv amf mf va
      ∧ "-b:a" ∉ getOptimalVideoSettings nv vt qsv amf mf va := by
  decide

theorem converted_file_head (f : String) (h : ∃ r, f = "converted/" ++ r) :
    ∃ l, f.data = Char.ofNat 99 :: l := by
  obtain ⟨r, rfl⟩ := h
  exact ⟨_, by rw [String.data_append]; rfl⟩

/-! ## Helper lemmas: label membership and scoping -/

theorem memB_iff (l : Label) (xs : List Label) : memB l xs = true ↔ l ∈ xs := by
  induction xs with
  | nil => simp [memB]
  | cons a rest ih =>
    simp only [memB, Bool.or_eq_true, decide_eq_true_eq, ih, List.mem_cons]
    constructor
    · rintro (h | h)
      · exact Or.inl h.symm
      · exact Or.inr h
    · rintro (h | h)
      · exact Or.inl h.symm
      · exact Or.inr h

theorem wellScoped_append (a b : List FNode) (p : List Label) :
    wellScoped p (a ++ b)
      = (wellScoped p a && wellScoped (a.reverse.map FNode.output ++ p) b) := by
  induction a generalizing p with
  | nil => simp [wellScoped]
  | cons nd rest ih =>
    have e1 : wellScoped p (nd :: (rest ++ b))
        = ((nd.inputs.all fun l => memB l p)
            && wellScoped (nd.output :: p) (rest ++ b)) := rfl
    have e2 : wellScoped p (nd :: rest)
        = ((nd.inputs.all fun l => memB l p)
            && wellScoped (nd.output :: p) rest) := rfl
    have h2 : (nd :: rest).reverse.map FNode.output ++ p
        = rest.reverse.map FNode.output ++ (nd.output :: p) := by
      simp [List.reverse_cons, List.map_append, List.append_assoc]
    calc wellScoped p ((nd :: rest) ++ b)
        = ((nd.inputs.all fun l => memB l p)
            && wellScoped (nd.output :: p) (rest ++ b)) := e1
      _ = ((nd.inputs.all fun l => memB l p)
            && (wellScoped (nd.output :: p) rest
              && wellScoped (rest.reverse.map FNode.output ++ (nd.output :: p)) b)) := by
          rw [ih]
      _ = (wellScoped p (nd :: rest)
            && wellScoped ((nd :: rest).reverse.map FNode.output ++ p) b) := by
          rw [e2, h2, Bool.and_assoc]

theorem wellScoped_of_inputs_nil (l : List FNode) (p : List Label)
    (h : ∀ nd ∈ l, nd.inputs = []) : wellScoped p l = true := by
  induction l generalizing p with
  | nil => rfl
  | cons nd rest ih =>
    simp only [wellScoped, h nd (List.mem_cons_self nd rest), List.all_nil,
      Bool.true_and]
    exact ih _ fun x hx => h x (List.mem_cons_of_mem nd hx)

theorem output_clipNode (i : Nat) : (clipNode i).output = Label.v i := rfl

theorem output_xfadeNode (i : Nat) : (xfadeNode i).output = Label.x (i + 1) := rfl

theorem wellScoped_xfades (n : Nat) (hn : 2 ≤ n) (p : List Label)
    (hp : ∀ j, j < n → Label.v j ∈ p) :
    ∀ m, m ≤ n - 1 → wellScoped p ((List.range m).map xfadeNode) = true := by
  intro m
  induction m with
  | zero => intro; rfl
  | succ m ih =>
    intro hm
    rw [List.range_succ, List.map_append, wellScoped_append,
      ih (Nat.le_of_succ_le hm), Bool.true_and]
    have hx : ∀ l ∈ (xfadeNode m).inputs,
        l ∈ (((List.range m).map xfadeNode).reverse.map FNode.output ++ p) := by
      intro l hl
      rcases Nat.eq_zero_or_pos m with hm0 | hmpos
      · subst hm0
        simp only [xfadeNode, if_pos, List.mem_cons, List.not_mem_nil,
          or_false] at hl
        rcases hl with h | h
        · subst h; exact List.mem_append_right _ (hp 0 (by omega))
        · subst h; exact List.mem_append_right _ (hp 1 (by omega))
      · have hm' : m ≠ 0 := Nat.pos_iff_ne_zero.mp hmpos
        simp only [xfadeNode, if_neg hm', List.mem_cons, List.not_mem_nil,
          or_false] at hl
        rcases hl with h | h
        · subst h
          apply List.mem_append_left
          rw [List.map_reverse]
          rw [List.mem_reverse, List.map_map]
          simp only [List.mem_map, List.mem_range, Function.comp]
          refine ⟨m - 1, by omega, ?_⟩
          rw [output_xfadeNode]
          congr 1
          omega
        · subst h
          exact List.mem_append_right _ (hp (m + 1) (by omega))
    simp only [wellScoped, List.all_eq_true, Bool.and_true]
    intro l hl
    exact (memB_iff _ _).mpr (hx l hl)

theorem wellScoped_graphNodes (n : Nat) (hn : 2 ≤ n) (hasAudio : Bool) :
    wellScoped [] (graphNodes n hasAudio) = true := by
  have hclipnil : ∀ nd ∈ (List.range n).map clipNode, nd.inputs = [] := by
    intro nd hnd
    simp only [List.mem_map] at hnd
    obtain ⟨i, _, hi⟩ := hnd
    rw [← hi]
    rfl
  unfold graphNodes
  simp only [List.append_assoc]
  rw [wellScoped_append, wellScoped_of_inputs_nil _ _ hclipnil, Bool.true_and]
  set p1 : List Label := (((List.range n).map clipNode).reverse.map FNode.output ++ []) with hp1
  have hvp1 : ∀ j, j < n → Label.v j ∈ p1 := by
    intro j hj
    rw [hp1, List.append_nil, List.map_reverse, List.mem_reverse, List.map_map]
    simp only [List.mem_map, List.mem_range, Function.comp]
    exact ⟨j, hj, rfl⟩
  rw [wellScoped_append, wellScoped_xfades n hn p1 hvp1 (n - 1) (Nat.le_refl _),
    Bool.true_and]
  set p2 : List Label :=
    (((List.range (n - 1)).map xfadeNode).reverse.map FNode.output ++ p1) with hp2
  have hxmem : Label.x (n - 1) ∈ p2 := by
    rw [hp2]
    apply List.mem_append_left
    rw [List.map_reverse, List.mem_reverse, List.map_map]
    simp only [List.mem_map, List.mem_range, Function.comp]
    refine ⟨n - 2, by omega, ?_⟩
    rw [output_xfadeNode]
    congr 1
    omega
  cases hasAudio with
  | false =>
    show wellScoped p2 ([fadeOutNode n, trimNode] ++ []) = true
    simp only [List.append_nil]
    simp only [wellScoped, fadeOutNode, trimNode, List.all_cons, List.all_nil,
      Bool.and_true, Bool.and_eq_true, memB_iff]
    exact ⟨hxmem, List.mem_cons_self _ _⟩
  | true =>
    show wellScoped p2 ([fadeOutNode n, trimNode] ++ [afadeNode]) = true
    simp only [List.cons_append, List.nil_append]
    simp only [wellScoped, fadeOutNode, trimNode, afadeNode, List.all_cons,
      List.all_nil, Bool.and_true, Bool.and_eq_true, memB_iff]
    exact ⟨hxmem, List.mem_cons_self _ _⟩

theorem outputs_graphNodes (n : Nat) (hasAudio : Bool) :
    (graphNodes n hasAudio).map FNode.output
      = (List.range n).map Label.v
        ++ (List.range (n - 1)).map (fun i => Label.x (i + 1))
        ++ [Label.xf, Label.xfout]
        ++ (if hasAudio then [Label.musicout] else []) := by
  have h1 : FNode.output ∘ clipNode = Label.v := funext fun i => rfl
  have h2 : FNode.output ∘ xfadeNode = fun i => Label.x (i + 1) := funext fun i => rfl
  cases hasAudio <;>
    simp [graphNodes, List.map_append, List.map_map, h1, h2,
      fadeOutNode, trimNode, afadeNode, FNode.output]

theorem nodup_outputs_graphNodes (n : Nat) (hasAudio : Bool) :
    ((graphNodes n hasAudio).map FNode.output).Nodup := by
  rw [outputs_graphNodes]
  have hv : ((List.range n).map Label.v).Nodup :=
    (List.nodup_range n).map fun a b h => Label.v.inj h
  have hx : ((List.range (n - 1)).map (fun i => Label.x (i + 1))).Nodup :=
    (List.nodup_range (n - 1)).map fun a b h => by
      have := Label.x.inj h
      omega
  have htail : ((if hasAudio then [Label.musicout] else []) : List Label).Nodup := by
    cases hasAudio <;> simp
  rw [List.append_assoc, List.append_assoc, List.nodup_append]
  refine ⟨hv, ?_, ?_⟩
  · rw [List.nodup_append]
    refine ⟨hx, ?_, ?_⟩
    · rw [List.nodup_append]
      refine ⟨by simp, htail, ?_⟩
      intro a ha hb
      simp only [List.mem_cons, List.not_mem_nil, or_false] at ha
      cases hasAudio with
      | false => simp at hb
      | true =>
        simp only [ite_true, List.mem_cons, List.not_mem_nil, or_false] at hb
        rcases ha with h | h <;> subst h <;> cases hb
    · intro a ha hb
      simp only [List.mem_map, List.mem_range] at ha
      obtain ⟨i, _, hi⟩ := ha
      subst hi
      rcases List.mem_append.mp hb with h | h
      · simp only [List.mem_cons, List.not_mem_nil, or_false] at h
        rcases h with h | h <;> cases h
      · cases hasAudio with
        | false => simp at h
        | true =>
          simp only [ite_true, List.mem_cons, List.not_mem_nil, or_false] at h
          cases h
  · intro a ha hb
    simp only [List.mem_map, List.mem_range] at ha
    obtain ⟨i, _, hi⟩ := ha
    subst hi
    rcases List.mem_append.mp hb with h | h
    · simp only [List.mem_map, List.mem_range] at h
      obtain ⟨j, _, hj⟩ := h
      cases hj
    · rcases List.mem_append.mp h with h2 | h2
      · simp only [List.mem_cons, List.not_mem_nil, or_false] at h2
        rcases h2 with h2 | h2 <;> cases h2
      · cases hasAudio with
        | false => simp at h2
        | true =>
          simp only [ite_true, List.mem_cons, List.not_mem_nil, or_false] at h2
          cases h2

/-! ## Claim theorems -/

/-- Claim C1: for every run with N >= 2 clips, per-image duration D and
transition duration F with D > F > 0, the transition loop emits exactly
N-1 crossfade nodes chained linearly (each transition after the first
consumes the previous crossfade output and the next raw clip), the
crossfade offset of the i-th transition (i in 1..N-1) equals i*(D-F), and
the offset sequence is strictly increasing in i. -/
theorem crossfade_offsets_correct (n : Nat) (D F : Int)
    (hn : 2 ≤ n) (hF : 0 < F) (hDF : F < D) :
    (xfadeOffsets n D F).length = n - 1
    ∧ (∀ i, 1 ≤ i → i ≤ n - 1 →
        (xfadeOffsets n D F)[i - 1]? = some ((i : Int) * (D - F)))
    ∧ List.Pairwise (fun a b : Int => a < b) (xfadeOffsets n D F)
    ∧ ((List.range (n - 1)).map xfadeNode).length = n - 1
    ∧ (∀ i, 1 ≤ i → i < n - 1 →
        (xfadeNode i).inputs = [Label.x i, Label.v (i + 1)]
          ∧ (xfadeNode (i - 1)).output = Label.x i)
    ∧ (xfadeNode 0).inputs = [Label.v 0, Label.v 1] := by
  refine ⟨by simp [xfadeOffsets], ?_, ?_, by simp, ?_, by simp [xfadeNode]⟩
  · intro i h1 h2
    rw [xfadeOffsets, List.getElem?_map, List.getElem?_range (by omega : i - 1 < n - 1)]
    show some (xfadeOffset D F (i - 1)) = some ((i : Int) * (D - F))
    congr 1
    rw [xfadeOffset, Nat.cast_sub h1]
    ring
  · rw [xfadeOffsets]
    refine List.pairwise_map.mpr ?_
    have hlt : List.Pairwise (fun a b : Nat => a < b) (List.range (n - 1)) :=
      List.pairwise_lt_range (n - 1)
    refine hlt.imp ?_
    intro a b hab
    apply mul_lt_mul_of_pos_right
    · exact_mod_cast Nat.succ_lt_succ hab
    · omega
  · intro i h1 h2
    have h0 : i ≠ 0 := by omega
    constructor
    · simp [xfadeNode, h0]
    · rw [output_xfadeNode]
      congr 1
      omega

/-- Claim C1 witness: for N=3, D=5, F=1 the offsets are [4, 8] and
strictly increasing. -/
theorem crossfade_offsets_witness :
    xfadeOffsets 3 5 1 = [4, 8]
    ∧ List.Pairwise (fun a b : Int => a < b) (xfadeOffsets 3 5 1)
    ∧ (xfadeOffsets 3 5 1).length = 2 :=
  ⟨by decide,
   (crossfade_offsets_correct 3 5 1 (by norm_num) (by norm_num) (by norm_num)).2.2.1,
   by decide⟩

/-- Claim C2: for every run with N >= 2 clips, duration D and transition
F, the filter graph ends with a fade-out node starting at
(N*D-(N-1)*F) - F of duration F applied to the last crossfade output,
followed by a trim node forcing the output duration to exactly
N*D-(N-1)*F, and the same value is passed as the final forced-duration
(-t) argument. -/
theorem total_duration_trim_correct (n : Nat) (D F : Int) (hn : 2 ≤ n) :
    totalDuration n D F = finalLength n D F
    ∧ startFadeOut n D F = finalLength n D F - F
    ∧ (fadeOutNode n).inputs = [Label.x (n - 1)]
    ∧ trimNode.inputs = [Label.xf]
    ∧ fadeOutFragment n D F
        = "[x" ++ toString (n - 1) ++ "]fade=t=out:st="
          ++ toString (finalLength n D F - F) ++ ":d=" ++ toString F ++ "[xf]; "
    ∧ trimFragment n D F
        = "[xf]trim=duration=" ++ toString (finalLength n D F)
          ++ ",setpts=PTS-STARTPTS[xfout]; "
    ∧ (∀ kb exif eff ov audio, ∃ pre, filterComplex n D F kb exif eff ov audio
        = pre ++ fadeOutFragment n D F ++ trimFragment n D F
          ++ (if audio then audioFragment n D F else ""))
    ∧ (∀ (files musicFiles : List String) kb exif eff ov st,
        files.length = n →
        ∃ pre, ffmpegArgs files musicFiles D F kb exif eff ov st
          = pre ++ ["-t", toString (finalLength n D F)]) := by
  refine ⟨rfl, rfl, rfl, rfl, rfl, rfl, ?_, ?_⟩
  · intro kb exif eff ov audio
    exact ⟨_, rfl⟩
  · intro files musicFiles kb exif eff ov st hlen
    subst hlen
    exact ⟨_, rfl⟩

/-- Claim C2 witness: for N=3, D=5, F=1 the total is 13s and the fade-out
starts at 12s. -/
theorem total_duration_trim_witness :
    finalLength 3 5 1 = 13 ∧ startFadeOut 3 5 1 = 12
    ∧ totalDuration 3 5 1 = finalLength 3 5 1 :=
  ⟨by decide, by decide, (total_duration_trim_correct 3 5 1 (by norm_num)).1⟩

/-- Claim C3 counterexample: the claim states the audio fade-out start
equals the video fade-out start minus the transition duration minus 4
(7s for N=3, D=5, F=1); the code computes startFadeOut - 4, which is 8s
at that input. -/
theorem audio_fade_claim_counterexample :
    audioFadeOutStart 3 5 1 = 8
    ∧ audioFadeOutStart 3 5 1 ≠ startFadeOut 3 5 1 - 1 - 4
    ∧ startFadeOut 3 5 1 - 1 - 4 = 7 := by
  decide

/-- Claim C3 amended: if a background audio file is present, GenerateVideo
emits exactly one audio filter chain consisting of a fade-in of 2 seconds
at t=0 and a fade-out of 4 seconds starting at the video fade-out start
minus 4 seconds (with no transition-duration subtraction; 8s for N=3,
D=5, F=1), bound to input stream index N; the audio fade-out ends exactly
at the video fade-out start, so no audio activity is scheduled past it. -/
theorem audio_fade_correct (n : Nat) (D F : Int) (hn : 2 ≤ n) :
    audioFadeOutStart n D F = startFadeOut n D F - 4
    ∧ audioFadeOutStart n D F + 4 = startFadeOut n D F
    ∧ audioFragment n D F
        = "[" ++ toString n ++ ":a]afade=t=in:st=0:d=2,afade=t=out:st="
          ++ toString (startFadeOut n D F - 4) ++ ":d=4[musicout]; "
    ∧ (∀ kb exif eff ov, ∃ pre, filterComplex n D F kb exif eff ov true
        = pre ++ audioFragment n D F)
    ∧ ((graphNodes n true).filter (fun nd => nd.output == Label.musicout)).length = 1
    ∧ ((graphNodes n false).filter (fun nd => nd.output == Label.musicout)).length = 0 := by
  have hclip : ((List.range n).map clipNode).filter
      (fun nd => nd.output == Label.musicout) = [] := by
    rw [List.filter_eq_nil_iff]
    intro a ha
    simp only [List.mem_map] at ha
    obtain ⟨i, _, rfl⟩ := ha
    simp [clipNode]
  have hxf : ((List.range (n - 1)).map xfadeNode).filter
      (fun nd => nd.output == Label.musicout) = [] := by
    rw [List.filter_eq_nil_iff]
    intro a ha
    simp only [List.mem_map] at ha
    obtain ⟨i, _, rfl⟩ := ha
    simp [xfadeNode]
  refine ⟨rfl, by rw [audioFadeOutStart]; ring, rfl, ?_, ?_, ?_⟩
  · intro kb exif eff ov
    exact ⟨_, rfl⟩
  · simp [graphNodes, List.filter_append, hclip, hxf, fadeOutNode, trimNode, afadeNode]
  · simp [graphNodes, List.filter_append, hclip, hxf, fadeOutNode, trimNode]

/-- Claim C3 amended witness: for N=3, D=5, F=1 the audio fade-out starts
at 8 and ends exactly at the video fade-out start 12. -/
theorem audio_fade_correct_witness :
    audioFadeOutStart 3 5 1 + 4 = startFadeOut 3 5 1
    ∧ audioFadeOutStart 3 5 1 = 8 :=
  ⟨(audio_fade_correct 3 5 1 (by norm_num)).2.1, by decide⟩

/-- Claim C4: viewing the six hardware-availability booleans as inputs,
encoder selection is a pure function whose chosen backend is the first
available one in the fixed priority order NVENC > VideoToolbox >
Media Foundation > QSV > AMF > VAAPI > software libx264; no combination
selects a lower-priority backend while a higher-priority one is
available, and the software fallback is chosen exactly when all six are
unavailable. -/
theorem encoder_priority_correct : ∀ nv vt qsv amf mf va : Bool,
    codecOf (getOptimalVideoSettings nv vt qsv amf mf va)
      = some (specSelectedCodec nv vt mf qsv amf va)
    ∧ (codecOf (getOptimalVideoSettings nv vt qsv amf mf va) = some "libx264"
        ↔ nv = false ∧ vt = false ∧ mf = false ∧ qsv = false ∧ amf = false
            ∧ va = false) := by
  decide

/-- Claim C5: for every N >= 2 and every audio option, each symbolic label
emitted into the filter graph is produced exactly once, every label
consumed by a node was produced by an earlier node, and the produced
labels are exactly v0..v(N-1), x1..x(N-1), xf, xfout and (with audio)
musicout. -/
theorem label_discipline (n : Nat) (hasAudio : Bool) (hn : 2 ≤ n) :
    ((graphNodes n hasAudio).map FNode.output).Nodup
    ∧ wellScoped [] (graphNodes n hasAudio) = true
    ∧ (graphNodes n hasAudio).map FNode.output
      = (List.range n).map Label.v
        ++ (List.range (n - 1)).map (fun i => Label.x (i + 1))
        ++ [Label.xf, Label.xfout]
        ++ (if hasAudio then [Label.musicout] else []) :=
  ⟨nodup_outputs_graphNodes n hasAudio, wellScoped_graphNodes n hn hasAudio,
   outputs_graphNodes n hasAudio⟩

/-- Claim C5 witness: at N=3 with audio the graph outputs are distinct and
every consumed label is produced earlier. -/
theorem label_discipline_witness :
    ((graphNodes 3 true).map FNode.output).Nodup
    ∧ wellScoped [] (graphNodes 3 true) = true :=
  ⟨(label_discipline 3 true (by norm_num)).1,
   (label_discipline 3 true (by norm_num)).2.1⟩

/-- Claim C6: with zero or one frame files the orchestrator stops with a
descriptive precondition error (naming, for one frame, the count found)
and produces no argument vector, so no encode subprocess is invoked and
no output file is created; the image-conversion stage enforces the same
at-least-2-images precondition before creating its output directory. -/
theorem min_clip_rejection :
    (∀ (files musicFiles : List String) (D F : Int) (kb exif : Bool)
        (eff ov : Nat → String) (st : List String),
      (files.length = 0 → generateVideoArgs files musicFiles D F kb exif eff ov st
          = Except.error noImagesMsg)
      ∧ (files.length = 1 → generateVideoArgs files musicFiles D F kb exif eff ov st
          = Except.error (notEnoughImagesMsg 1)))
    ∧ strContainsSub (notEnoughImagesMsg 1) "Found: 1 image(s)" = true
    ∧ (∀ jpgs : List String,
      (jpgs.length = 0 → convertImages false jpgs = Except.error noJpgMsg)
      ∧ (jpgs.length = 1 → convertImages false jpgs = Except.error (needTwoMsg 1))
      ∧ (2 ≤ jpgs.length → convertImages false jpgs
          = Except.ok (ConvertAction.mkdirConverted
              :: jpgs.map ConvertAction.processImage))) := by
  refine ⟨?_, by decide, ?_⟩
  · intro files musicFiles D F kb exif eff ov st
    constructor
    · intro h
      simp [generateVideoArgs, h]
    · intro h
      rw [generateVideoArgs]
      rw [if_neg (by omega), if_pos (by omega), h]
  · intro jpgs
    refine ⟨?_, ?_, ?_⟩
    · intro h
      simp [convertImages, h]
    · intro h
      rw [convertImages]
      rw [if_neg (by exact Bool.false_ne_true), if_neg (by omega), if_pos (by omega), h]
    · intro h
      rw [convertImages]
      rw [if_neg (by exact Bool.false_ne_true), if_neg (by omega), if_neg (by omega)]

/-- Claim C6 witness: a directory with exactly one frame is rejected with
the count in the message, and the conversion stage rejects one jpg. -/
theorem min_clip_rejection_witness :
    generateVideoArgs ["converted/a.jpg"] [] 5 1 false false
        (fun _ => "") (fun _ => "") []
      = Except.error (notEnoughImagesMsg 1)
    ∧ convertImages false ["b.jpg"] = Except.error (needTwoMsg 1) :=
  ⟨(min_clip_rejection.1 ["converted/a.jpg"] [] 5 1 false false
      (fun _ => "") (fun _ => "") []).2 rfl,
   (min_clip_rejection.2.2 ["b.jpg"]).2.1 rfl⟩

/-- Claim C8: if the encoder-listing invocation fails, every capability
check returns false rather than aborting, and the settings consequently
fall back to the software libx264 profile. -/
theorem probe_failure_degrades : ∀ smokeNVENC smokeQSV smokeAMF smokeMF smokeVAAPI : Bool,
    checkNVENCAvailable none smokeNVENC = false
    ∧ checkVideoToolboxAvailable none = false
    ∧ checkQSVAvailable none smokeQSV = false
    ∧ checkAMFAvailable none smokeAMF = false
    ∧ checkMediaFoundationAvailable none smokeMF = false
    ∧ checkVAAPIAvailable none smokeVAAPI = false
    ∧ getOptimalVideoSettingsProbed none smokeNVENC smokeQSV smokeAMF smokeMF smokeVAAPI
        = baseSettings ++ cpuSettings
    ∧ codecOf (getOptimalVideoSettingsProbed none smokeNVENC smokeQSV smokeAMF
        smokeMF smokeVAAPI) = some "libx264" := by
  decide

/-- Claim C10: if the converted directory already exists, ConvertImages
returns nil immediately with no filesystem actions at all, whatever the
jpg files present. -/
theorem converted_exists_skips_conversion (jpgFiles : List String) :
    convertImages true jpgFiles = Except.ok [] := rfl

/-- Claim C9 counterexample: camera fields can contain a single quote; the
drawtext node then interpolates the overlay text verbatim, leaving an odd
number of quote characters in the rendered filter fragment, i.e. an
unterminated quoted section, so the text is not escaped and the graph
string is not well-formed for every possible overlay text. -/
theorem overlay_escaping_counterexample :
    FormatCameraInfoOverlay quoteCamera = "Leica M" ++ quoteStr ++ "11"
    ∧ countQuotes (FormatCameraInfoOverlay quoteCamera) = 1
    ∧ countQuotes (drawtextFilter (FormatCameraInfoOverlay quoteCamera)) % 2 = 1 := by
  decide

/-- Claim C9 amended: for every clip with non-empty overlay text the
drawtext node is chained directly after the effect node into the uniquely
labeled output, with the overlay text inserted verbatim (unescaped)
between single quotes; the rendered fragment carries exactly two more
quote characters than the text, so it is well-formed (balanced quoting)
for quote-free overlay texts but not for texts with an odd number of
quotes. -/
theorem overlay_verbatim (text : String) (kb : Bool)
    (eff ov : Nat → String) (F : Int) (i : Nat) (hov : ov i ≠ "") :
    countQuotes (drawtextFilter text) = countQuotes text + 2
    ∧ (countQuotes text = 0 → countQuotes (drawtextFilter text) = 2)
    ∧ clipFragment kb true eff ov F i
        = clipBaseFilter kb eff F i ++ drawtextFilter (ov i)
          ++ "[v" ++ toString i ++ "]; " := by
  have hq : ∀ s t : String, countQuotes (s ++ t) = countQuotes s + countQuotes t := by
    intro s t
    rw [countQuotes, countQuotes, countQuotes, String.data_append, List.count_append]
  have hcount : countQuotes (drawtextFilter text) = countQuotes text + 2 := by
    rw [drawtextFilter, hq, hq, hq, hq]
    have h1 : countQuotes ",drawtext=text=" = 0 := by decide
    have h2 : countQuotes quoteStr = 1 := by decide
    have h3 : countQuotes ":fontsize=36:fontcolor=white:x=(w-tw)/2:y=h-th-20:box=1:boxcolor=black@0.5:boxborderw=5" = 0 := by
      decide
    rw [h1, h2, h3]
    omega
  refine ⟨hcount, fun h0 => by rw [hcount, h0], ?_⟩
  rw [clipFragment, if_pos (by simp [hov])]

/-- Claim C9 amended witness: a quote-free overlay text yields a balanced
fragment chained after the effect node. -/
theorem overlay_verbatim_witness :
    countQuotes (drawtextFilter "Canon EOS R5") = 2
    ∧ clipFragment false true (fun _ => "") (fun _ => "Canon EOS R5") 1 0
        = clipBaseFilter false (fun _ => "") 1 0 ++ drawtextFilter "Canon EOS R5"
          ++ "[v" ++ toString 0 ++ "]; " := by
  have h := overlay_verbatim "Canon EOS R5" false (fun _ => "")
    (fun _ => "Canon EOS R5") 1 0 (by decide)
  exact ⟨h.2.1 (by decide), h.2.2⟩

/-- Claim C7: with zero mp3 files the argument vector contains exactly one
-map entry (the video map [xfout]), no -shortest flag and no audio-codec
flags, and the run proceeds rather than erroring; with at least one mp3
file the first match is appended as the sole extra input and the vector
contains the audio map [musicout], the -shortest flag and the aac 192k
audio-codec flags. -/
theorem audio_optionality (files : List String) (duration fadeDuration : Int)
    (applyKenBurns exifOverlay : Bool) (effects overlays : Nat → String)
    (nv vt qsv amf mf va : Bool)
    (hn : 2 ≤ files.length) (hD : 0 < duration) (hF : 0 < fadeDuration)
    (hDF : fadeDuration < duration)
    (hfiles : ∀ f ∈ files, ∃ r, f = "converted/" ++ r) :
    List.count "-map" (ffmpegArgs files [] duration fadeDuration applyKenBurns
        exifOverlay effects overlays (getOptimalVideoSettings nv vt qsv amf mf va)) = 1
    ∧ (∃ pre post, ffmpegArgs files [] duration fadeDuration applyKenBurns
        exifOverlay effects overlays (getOptimalVideoSettings nv vt qsv amf mf va)
        = pre ++ ["-map", "[xfout]"] ++ post)
    ∧ "-shortest" ∉ ffmpegArgs files [] duration fadeDuration applyKenBurns
        exifOverlay effects overlays (getOptimalVideoSettings nv vt qsv amf mf va)
    ∧ "-c:a" ∉ ffmpegArgs files [] duration fadeDuration applyKenBurns
        exifOverlay effects overlays (getOptimalVideoSettings nv vt qsv amf mf va)
    ∧ "-b:a" ∉ ffmpegArgs files [] duration fadeDuration applyKenBurns
        exifOverlay effects overlays (getOptimalVideoSettings nv vt qsv amf mf va)
    ∧ generateVideoArgs files [] duration fadeDuration applyKenBurns exifOverlay
        effects overlays (getOptimalVideoSettings nv vt qsv amf mf va)
      = Except.ok (ffmpegArgs files [] duration fadeDuration applyKenBurns
          exifOverlay effects overlays (getOptimalVideoSettings nv vt qsv amf mf va))
    ∧ (∀ m rest, ffmpegArgs files (m :: rest) duration fadeDuration applyKenBurns
        exifOverlay effects overlays (getOptimalVideoSettings nv vt qsv amf mf va)
        = ["-y"] ++ imageInputs files duration ++ ["-i", m]
          ++ ["-filter_complex", filterComplex files.length duration fadeDuration
              applyKenBurns exifOverlay effects overlays true]
          ++ ["-map", "[xfout]", "-map", "[musicout]", "-shortest", "video.mp4"]
          ++ getOptimalVideoSettings nv vt qsv amf mf va
          ++ ["-c:a", "aac", "-b:a", "192k"]
          ++ ["-t", toString (finalLength files.length duration fadeDuration)]) := by
  set st := getOptimalVideoSettings nv vt qsv amf mf va with hst
  set n := files.length with hnn
  set fc := filterComplex n duration fadeDuration applyKenBurns exifOverlay
    effects overlays false with hfc
  set ts := toString (finalLength n duration fadeDuration) with hts
  have hargs : ffmpegArgs files [] duration fadeDuration applyKenBurns exifOverlay
      effects overlays st
      = ["-y"] ++ imageInputs files duration ++ ["-filter_complex", fc]
        ++ ["-map", "[xfout]", "video.mp4"] ++ st ++ ["-t", ts] := by
    simp [ffmpegArgs, mapArgs, audioCodecArgs, List.append_assoc]
  have hfl : 0 ≤ finalLength n duration fadeDuration := by
    have hn2 : (2 : Int) ≤ (n : Int) := by exact_mod_cast hn
    have haux : 0 ≤ ((n : Int) - 1) * (duration - fadeDuration) :=
      mul_nonneg (by linarith) (by linarith)
    rw [finalLength]
    nlinarith [haux]
  have hdurdig := toString_int_nonneg_digits duration hD.le
  have hfldig := toString_int_nonneg_digits (finalLength n duration fadeDuration) hfl
  obtain ⟨lfc, hlfc⟩ := filterComplex_head n duration fadeDuration applyKenBurns
    exifOverlay effects overlays false (by omega)
  have hdashdur : ∀ a : String, ∀ la : List Char, a.data = Char.ofNat 45 :: la →
      a ≠ toString duration := by
    intro a la hla
    exact (ne_of_head_not_digit (toString duration) a hdurdig.2 (Char.ofNat 45) la hla
      (by decide)).symm
  have hdashfl : ∀ a : String, ∀ la : List Char, a.data = Char.ofNat 45 :: la →
      a ≠ ts := by
    intro a la hla
    exact (ne_of_head_not_digit ts a hfldig.2 (Char.ofNat 45) la hla (by decide)).symm
  have hdashfile : ∀ a : String, ∀ la : List Char, a.data = Char.ofNat 45 :: la →
      ∀ f ∈ files, a ≠ f := by
    intro a la hla f hf
    obtain ⟨lf, hlf⟩ := converted_file_head f (hfiles f hf)
    exact ne_of_data_head a f (Char.ofNat 45) (Char.ofNat 99) la lf hla hlf (by decide)
  have hdashfc : ∀ a : String, ∀ la : List Char, a.data = Char.ofNat 45 :: la →
      a ≠ fc := by
    intro a la hla
    exact ne_of_data_head a fc (Char.ofNat 45) (Char.ofNat 91) la lfc hla hlfc
      (by decide)
  have hnotmem : ∀ a : String, ∀ la : List Char, a.data = Char.ofNat 45 :: la →
      a ≠ "-y" → a ≠ "-loop" → a ≠ "1" → a ≠ "-t" → a ≠ "-i" →
      a ≠ "-filter_complex" → a ∉ st → a ≠ "-map" → a ≠ "[xfout]" →
      a ≠ "video.mp4" →
      a ∉ ffmpegArgs files [] duration fadeDuration applyKenBurns exifOverlay
        effects overlays st := by
    intro a la hla h1 h2 h3 h4 h5 h6 h7 h8 h9 h10
    rw [hargs]
    intro hmem
    rcases List.mem_append.mp hmem with h | h
    rotate_left
    · simp only [List.mem_cons, List.not_mem_nil, or_false] at h
      rcases h with h | h
      · exact h4 h
      · exact hdashfl a la hla h
    rcases List.mem_append.mp h with h | h
    rotate_left
    · exact h7 h
    rcases List.mem_append.mp h with h | h
    rotate_left
    · simp only [List.mem_cons, List.not_mem_nil, or_false] at h
      rcases h with h | h | h
      · exact h8 h
      · exact h9 h
      · exact h10 h
    rcases List.mem_append.mp h with h | h
    rotate_left
    · simp only [List.mem_cons, List.not_mem_nil, or_false] at h
      rcases h with h | h
      · exact h6 h
      · exact hdashfc a la hla h
    rcases List.mem_append.mp h with h | h
    · simp only [List.mem_cons, List.not_mem_nil, or_false] at h
      exact h1 h
    · exact notMem_imageInputs a files duration h2 h3 h4
        (hdashdur a la hla) h5 (hdashfile a la hla) h
  refine ⟨?_, ?_, ?_, ?_, ?_, ?_, ?_⟩
  · rw [hargs]
    rw [List.count_append, List.count_append, List.count_append, List.count_append,
      List.count_append]
    have c1 : List.count "-map" ["-y"] = 0 := by decide
    have c2 : List.count "-map" (imageInputs files duration) = 0 :=
      count_imageInputs_zero "-map" files duration (by decide) (by decide) (by decide)
        (hdashdur "-map" "map".data (by decide)) (by decide)
        (hdashfile "-map" "map".data (by decide))
    have c3 : List.count "-map" ["-filter_complex", fc] = 0 := by
      refine List.count_eq_zero.mpr ?_
      simp only [List.mem_cons, List.not_mem_nil, or_false]
      rintro (h | h)
      · exact absurd h (by decide)
      · exact hdashfc "-map" "map".data (by decide) h
    have c4 : List.count "-map" ["-map", "[xfout]", "video.mp4"] = 1 := by decide
    have c5 : List.count "-map" st = 0 :=
      List.count_eq_zero.mpr (settings_no_stream_flags nv vt qsv amf mf va).1
    have c6 : List.count "-map" ["-t", ts] = 0 := by
      refine List.count_eq_zero.mpr ?_
      simp only [List.mem_cons, List.not_mem_nil, or_false]
      rintro (h | h)
      · exact absurd h (by decide)
      · exact hdashfl "-map" "map".data (by decide) h
    rw [c1, c2, c3, c4, c5, c6]
  · refine ⟨["-y"] ++ imageInputs files duration ++ ["-filter_complex", fc],
      ["video.mp4"] ++ st ++ ["-t", ts], ?_⟩
    rw [hargs]
    simp [List.append_assoc]
  · exact hnotmem "-shortest" "shortest".data (by decide) (by decide) (by decide)
      (by decide) (by decide) (by decide) (by decide)
      (settings_no_stream_flags nv vt qsv amf mf va).2.1 (by decide) (by decide)
      (by decide)
  · exact hnotmem "-c:a" "c:a".data (by decide) (by decide) (by decide)
      (by decide) (by decide) (by decide) (by decide)
      (settings_no_stream_flags nv vt qsv amf mf va).2.2.1 (by decide) (by decide)
      (by decide)
  · exact hnotmem "-b:a" "b:a".data (by decide) (by decide) (by decide)
      (by decide) (by decide) (by decide) (by decide)
      (settings_no_stream_flags nv vt qsv amf mf va).2.2.2 (by decide) (by decide)
      (by decide)
  · rw [generateVideoArgs, if_neg (by omega), if_neg (by omega)]
  · intro m rest
    simp [ffmpegArgs, mapArgs, audioCodecArgs, List.append_assoc]

/-- Claim C7 witness: two converted frames and no mp3 file yield exactly
one -map entry and no -shortest flag. -/
theorem audio_optionality_witness :
    List.count "-map" (ffmpegArgs ["converted/a.jpg", "converted/b.jpg"] [] 5 1
      false false (fun _ => "") (fun _ => "")
      (getOptimalVideoSettings false false false false false false)) = 1
    ∧ "-shortest" ∉ ffmpegArgs ["converted/a.jpg", "converted/b.jpg"] [] 5 1
      false false (fun _ => "") (fun _ => "")
      (getOptimalVideoSettings false false false false false false) := by
  have h := audio_optionality ["converted/a.jpg", "converted/b.jpg"] 5 1 false false
    (fun _ => "") (fun _ => "") false false false false false false
    (by norm_num) (by norm_num) (by norm_num) (by norm_num)
    (by
      intro f hf
      simp only [List.mem_cons, List.not_mem_nil, or_false] at hf
      rcases hf with h | h
      · exact ⟨"a.jpg", by rw [h]; decide⟩
      · exact ⟨"b.jpg", by rw [h]; decide⟩)
  exact ⟨h.1, h.2.2.1⟩
